import Mathlib

/-!
# IDXR Identity Cross-Resolution — verification of the matching core

Shallow embedding of the matching pipeline and its surrounding services of
the IDXR identity-resolution engine, together with theorems settling the
specification claims about them.

The embedding follows the Python sources:
* `main.py` — the resolver endpoint (`resolve_identity`, `deduplicate_matches`);
* `algorithms/deterministic.py` — the deterministic matcher;
* `algorithms/probabilistic.py` and `algorithms/ai_hybrid.py` — the date-of-birth
  field similarities and the final threshold/ranking pass;
* `services/realtime_processor.py` — the `IntelligentCache`;
* `services/data_quality_service.py` — the quality assessment;
* `services/batch_processing_service.py` — the batch-job lifecycle and queue;
* `middleware/rate_limiting.py` — the sliding-window rate limiter;
* `services/household_services.py` — household detection and merging.

Floating-point confidence scores are modelled as rationals; wall-clock
instants as rationals; Python's stable `list.sort` as a stable insertion
sort; `dict`s as association lists with Python's insertion/update semantics.
-/

namespace IDXR

/-! ## Match candidates and the resolver pipeline (`main.py`) -/

/-- A match candidate as the dictionaries produced by the matchers:
identity key, confidence, match-type tag, contributing fields and the
source systems that asserted the identity. -/
structure Match where
  identity_id : String
  confidence_score : ℚ
  match_type : String
  matched_fields : List String := []
  matched_systems : List String := []
  deriving DecidableEq, Repr

/-- One insertion step of the stable descending sort: the new element is
placed before the first element whose confidence is not larger, so that
elements with equal confidence keep their original relative order —
exactly the guarantee of Python's stable
`list.sort(key=lambda x: x['confidence_score'], reverse=True)`. -/
def insertByConf (x : Match) : List Match → List Match
  | [] => [x]
  | y :: ys =>
    if x.confidence_score < y.confidence_score then y :: insertByConf x ys
    else x :: y :: ys

/-- Stable sort by confidence, descending (`list.sort(..., reverse=True)`). -/
def sortByConfDesc : List Match → List Match
  | [] => []
  | x :: xs => insertByConf x (sortByConfDesc xs)

/-- Embedding of `deduplicate_matches` (main.py): keep the first occurrence of every
identity key, tracked through the `seen` set. -/
def dedupAux (seen : List String) : List Match → List Match
  | [] => []
  | m :: ms =>
    if m.identity_id ∈ seen then dedupAux seen ms
    else m :: dedupAux (m.identity_id :: seen) ms

/-- Embedding of `deduplicate_matches(matches)` from main.py. -/
def deduplicate_matches (ms : List Match) : List Match := dedupAux [] ms

/-- Embedding of `max(m['confidence_score'] for m in matches)` on a non-empty list. -/
def maxConfScore : List Match → ℚ
  | [] => 0
  | m :: ms => (ms.map Match.confidence_score).foldl max m.confidence_score

/-- The list of matches accumulated by `resolve_identity` (main.py lines
174–201) before filtering: deterministic output, then — only when there is
no deterministic match of confidence ≥ 0.95 — the probabilistic output,
then the fuzzy output, and, when `use_ml` is set, the AI-hybrid output with
the whole list passed through ML enhancement.  The matcher outputs and the
(randomised) `enhance_matches` are ports: parameters of the embedding. -/
def gatherMatches (useMl : Bool) (detOut probOut fuzzyOut aiOut : List Match)
    (enhance : List Match → List Match) : List Match :=
  let m1 := detOut
  let m2 :=
    if m1.isEmpty then m1 ++ probOut
    else if maxConfScore m1 < 19/20 then m1 ++ probOut
    else m1
  let m3 := m2 ++ fuzzyOut
  if useMl then
    let m4 := m3 ++ aiOut
    if m4.isEmpty then m4 else enhance m4
  else m3

/-- The result-assembly tail of `resolve_identity` (main.py lines 202–210):
filter by the request's `match_threshold`, deduplicate by identity key,
sort by confidence descending, return at most 10 matches. -/
def resolveCore (threshold : ℚ) (useMl : Bool)
    (detOut probOut fuzzyOut aiOut : List Match)
    (enhance : List Match → List Match) : List Match :=
  let gathered := gatherMatches useMl detOut probOut fuzzyOut aiOut enhance
  let filtered := gathered.filter (fun m => threshold ≤ m.confidence_score)
  let deduped := deduplicate_matches filtered
  (sortByConfDesc deduped).take 10

/-- Embedding of `AIHybridMatcher._apply_thresholds_and_rank` (ai_hybrid.py lines
615–639): drop matches below the 0.6 minimum confidence, then sort by
confidence descending with Python's stable sort. -/
def applyThresholdsAndRank (ms : List Match) : List Match :=
  sortByConfDesc (ms.filter (fun m => 3/5 ≤ m.confidence_score))

/-! ### Sortedness, permutation and stability of the confidence sort -/

/-- Descending order on confidence scores, as a pairwise relation. -/
def ConfDesc (a b : Match) : Prop := b.confidence_score ≤ a.confidence_score

theorem insertByConf_perm (x : Match) (l : List Match) :
    (insertByConf x l).Perm (x :: l) := by
  induction l with
  | nil => simp [insertByConf]
  | cons y ys ih =>
    by_cases h : x.confidence_score < y.confidence_score
    · simpa [insertByConf, h] using ((ih.cons y).trans (List.Perm.swap x y ys))
    · simp [insertByConf, h]

theorem sortByConfDesc_perm (l : List Match) : (sortByConfDesc l).Perm l := by
  induction l with
  | nil => simp [sortByConfDesc]
  | cons x xs ih =>
    exact (insertByConf_perm x (sortByConfDesc xs)).trans (ih.cons x)

theorem insertByConf_sorted (x : Match) (l : List Match)
    (hl : l.Pairwise ConfDesc) : (insertByConf x l).Pairwise ConfDesc := by
  induction l with
  | nil => simp [insertByConf, List.Pairwise]
  | cons y ys ih =>
    rcases List.pairwise_cons.mp hl with ⟨hy, hys⟩
    by_cases h : x.confidence_score < y.confidence_score
    · rw [insertByConf, if_pos h]
      refine List.pairwise_cons.mpr ⟨?_, ih hys⟩
      intro b hb
      rcases List.mem_cons.mp ((insertByConf_perm x ys).mem_iff.mp hb) with rfl | hb
      · exact le_of_lt h
      · exact hy b hb
    · rw [insertByConf, if_neg h]
      refine List.pairwise_cons.mpr ⟨?_, hl⟩
      intro b hb
      rcases List.mem_cons.mp hb with rfl | hb
      · exact le_of_not_gt h
      · exact le_trans (hy b hb) (le_of_not_gt h)

theorem sortByConfDesc_sorted (l : List Match) :
    (sortByConfDesc l).Pairwise ConfDesc := by
  induction l with
  | nil => simp [sortByConfDesc]
  | cons x xs ih => exact insertByConf_sorted x (sortByConfDesc xs) ih

/-- Stability of the sort, phrased through filtering on a confidence value:
the elements of any one confidence class come out in the order they went
in. -/
theorem insertByConf_filter_eq (x : Match) (l : List Match) (c : ℚ) :
    (insertByConf x l).filter (fun m => m.confidence_score = c) =
      (if x.confidence_score = c then [x] else []) ++
        l.filter (fun m => m.confidence_score = c) := by
  induction l with
  | nil => by_cases hx : x.confidence_score = c <;> simp [insertByConf, hx]
  | cons y ys ih =>
    by_cases h : x.confidence_score < y.confidence_score
    · rw [insertByConf, if_pos h]
      by_cases hy : y.confidence_score = c
      · have hx : ¬ x.confidence_score = c := by
          intro hx; rw [hx, hy] at h; exact lt_irrefl _ h
        simp [List.filter_cons, hy, hx, ih]
      · simp [List.filter_cons, hy, ih]
    · rw [insertByConf, if_neg h]
      by_cases hx : x.confidence_score = c <;>
        simp [List.filter_cons, hx]

theorem sortByConfDesc_filter_eq (l : List Match) (c : ℚ) :
    (sortByConfDesc l).filter (fun m => m.confidence_score = c) =
      l.filter (fun m => m.confidence_score = c) := by
  induction l with
  | nil => rfl
  | cons x xs ih =>
    rw [sortByConfDesc, insertByConf_filter_eq, ih]
    by_cases hx : x.confidence_score = c <;> simp [List.filter_cons, hx]

/-! ### Deduplication keeps the first occurrence of each identity key -/

theorem dedupAux_sublist (seen : List String) (l : List Match) :
    (dedupAux seen l).Sublist l := by
  induction l generalizing seen with
  | nil => simp [dedupAux]
  | cons m ms ih =>
    by_cases h : m.identity_id ∈ seen
    · simpa [dedupAux, h] using (ih seen).cons m
    · simpa [dedupAux, h] using (ih (m.identity_id :: seen)).cons₂ m

theorem deduplicate_matches_sublist (l : List Match) :
    (deduplicate_matches l).Sublist l := dedupAux_sublist [] l

theorem dedupAux_find? (seen : List String) (l : List Match) (id : String) :
    (dedupAux seen l).find? (fun m => m.identity_id = id) =
      if id ∈ seen then none else l.find? (fun m => m.identity_id = id) := by
  induction l generalizing seen with
  | nil => simp [dedupAux]
  | cons m ms ih =>
    by_cases hm : m.identity_id ∈ seen
    · rw [dedupAux, if_pos hm, ih seen]
      by_cases hid : id ∈ seen
      · simp [hid]
      · have hne : ¬ m.identity_id = id := fun h => hid (h ▸ hm)
        rw [if_neg hid, if_neg hid, List.find?_cons_of_neg _ (by simp [hne])]
    · rw [dedupAux, if_neg hm]
      by_cases heq : m.identity_id = id
      · have hid : id ∉ seen := heq ▸ hm
        rw [List.find?_cons_of_pos _ (by simp [heq]), if_neg hid,
          List.find?_cons_of_pos _ (by simp [heq])]
      · rw [List.find?_cons_of_neg _ (by simp [heq]), ih]
        by_cases hid : id ∈ seen
        · simp [hid, List.mem_cons]
        · have h1 : id ∉ m.identity_id :: seen := by
            simp [List.mem_cons, hid]
            exact fun h => heq h.symm
          rw [if_neg h1, if_neg hid, List.find?_cons_of_neg _ (by simp [heq])]

theorem deduplicate_matches_find? (l : List Match) (id : String) :
    (deduplicate_matches l).find? (fun m => m.identity_id = id) =
      l.find? (fun m => m.identity_id = id) := by
  simpa using dedupAux_find? [] l id

/-- The identity keys surviving deduplication are pairwise distinct. -/
theorem dedupAux_nodup_ids (seen : List String) (l : List Match) :
    ((dedupAux seen l).map Match.identity_id).Nodup ∧
      ∀ m ∈ dedupAux seen l, m.identity_id ∉ seen := by
  induction l generalizing seen with
  | nil => simp [dedupAux]
  | cons m ms ih =>
    by_cases h : m.identity_id ∈ seen
    · rw [dedupAux, if_pos h]; exact ih seen
    · rw [dedupAux, if_neg h]
      rcases ih (m.identity_id :: seen) with ⟨hnd, hseen⟩
      refine ⟨List.nodup_cons.mpr ⟨?_, hnd⟩, ?_⟩
      · intro hmem
        rcases List.mem_map.mp hmem with ⟨b, hb, hid⟩
        exact hseen b hb (by simp [hid])
      · intro b hb
        rcases List.mem_cons.mp hb with rfl | hb
        · exact h
        · intro hbseen
          exact hseen b hb (List.mem_cons_of_mem _ hbseen)

/-! ## The deterministic matcher (`algorithms/deterministic.py`) -/

/-- Embedding of `str.lower()`: character-wise lower-casing (the matcher compares
composite-key fields case-insensitively). -/
def lowerStr (s : String) : String := ⟨s.data.map Char.toLower⟩

/-- Embedding of `DeterministicMatcher.exact_match_fields`. -/
def exact_match_fields : List String := ["ssn", "driver_license", "passport_number"]

/-- Embedding of `DeterministicMatcher.composite_keys`. -/
def composite_keys : List (List String) :=
  [["first_name", "last_name", "dob"],
   ["phone", "email"],
   ["first_name", "last_name", "address"]]

/-- A stored identity of the matcher's mock corpus: identity key, field
map and asserting source systems. -/
structure StoredIdentity where
  identity_id : String
  fields : List (String × String)
  systems : List String

/-- Embedding of `DeterministicMatcher._get_mock_identities()`. -/
def detMockIdentities : List StoredIdentity :=
  [⟨"IDX001234567",
    [("first_name", "John"), ("last_name", "Doe"), ("dob", "1990-01-15"),
     ("ssn", "123-45-6789")], ["DMV", "HEALTH_DEPT"]⟩,
   ⟨"IDX001234568",
    [("first_name", "Jane"), ("last_name", "Smith"), ("dob", "1985-05-20"),
     ("driver_license", "DL123456")], ["DMV", "SOCIAL_SERVICES"]⟩,
   ⟨"IDX001234569",
    [("first_name", "Robert"), ("last_name", "Johnson"), ("dob", "1978-11-30"),
     ("phone", "303-555-0100"), ("email", "rjohnson@email.com")],
    ["HEALTH_DEPT"]⟩]

/-- Embedding of `field in demographic_data and field in identity and
demographic_data[field] == identity[field]` — the exact-field test. -/
def exactFieldMatch (demo idFields : List (String × String)) (f : String) : Bool :=
  match demo.lookup f, idFields.lookup f with
  | some v1, some v2 => v1 = v2
  | _, _ => false

/-- Embedding of `DeterministicMatcher._check_composite_match`: every field of the key
set present on both sides and equal after lower-casing. -/
def checkCompositeMatch (d1 d2 : List (String × String)) (fields : List String) : Bool :=
  fields.all fun f =>
    match d1.lookup f, d2.lookup f with
    | some v1, some v2 => lowerStr v1 = lowerStr v2
    | _, _ => false

/-- Embedding of `DeterministicMatcher.match`: per identity, the first exact
identifier field that matches contributes a confidence-1.0
`deterministic_exact` match, and the first composite key that matches
contributes a confidence-0.95 `deterministic_composite` match (the inner
`break`s make `find?` the faithful translation of both loops). -/
def deterministicMatch (demo : List (String × String)) : List Match :=
  (detMockIdentities.map fun identity =>
    (match exact_match_fields.find? (fun f => exactFieldMatch demo identity.fields f) with
     | some f => [⟨identity.identity_id, 1, "deterministic_exact", [f], identity.systems⟩]
     | none => []) ++
    (match composite_keys.find? (fun ks => checkCompositeMatch demo identity.fields ks) with
     | some ks => [⟨identity.identity_id, 19/20, "deterministic_composite", ks, identity.systems⟩]
     | none => [])).flatten

/-- In a list whose identity keys are pairwise distinct, `find?` on a
member's key returns that member. -/
theorem find?_eq_self_of_nodup_ids (m : Match) (l : List Match)
    (hnd : (l.map Match.identity_id).Nodup) (hm : m ∈ l) :
    l.find? (fun x => x.identity_id = m.identity_id) = some m := by
  induction l with
  | nil => cases hm
  | cons a as ih =>
    rw [List.map_cons, List.nodup_cons] at hnd
    rcases List.mem_cons.mp hm with rfl | hm'
    · rw [List.find?_cons_of_pos _ (by simp)]
    · have hne : ¬ a.identity_id = m.identity_id := by
        intro h
        exact hnd.1 (h ▸ List.mem_map_of_mem Match.identity_id hm')
      rw [List.find?_cons_of_neg _ (by simp [hne])]
      exact ih hnd.2 hm'

/-- The query of scenario S1: John Doe, born 1990-01-15, full SSN. -/
def johnDoeQuery : List (String × String) :=
  [("first_name", "John"), ("last_name", "Doe"), ("dob", "1990-01-15"),
   ("ssn", "123-45-6789")]

/-- Output of `FuzzyMatcher.match` on `johnDoeQuery` (fuzzy.py): only
`IDX003456789` scores above the 80 cutoff — `fuzz.ratio("john","johnny") = 80`
and `fuzz.ratio("doe","doe")·1.2 = 120` average to 100, giving confidence
`100/100 · 0.85 = 0.85`. -/
def fuzzyJohnOut : List Match := [⟨"IDX003456789", 17/20, "fuzzy", [], ["DMV"]⟩]

/-- Claim C1 (amended): for every resolve request, the returned matches list
is sorted by confidence descending and contains at most 10 entries, and
every confidence score is at least the request's `match_threshold`; the
claimed upper bound 0.99 does not hold (see the counterexample: a
deterministic exact match surfaces with confidence 1.0). -/
theorem resolver_matches_sorted_bounded (threshold : ℚ) (useMl : Bool)
    (detOut probOut fuzzyOut aiOut : List Match)
    (enhance : List Match → List Match) :
    (resolveCore threshold useMl detOut probOut fuzzyOut aiOut enhance).Pairwise ConfDesc ∧
      (resolveCore threshold useMl detOut probOut fuzzyOut aiOut enhance).length ≤ 10 ∧
      ∀ m ∈ resolveCore threshold useMl detOut probOut fuzzyOut aiOut enhance,
        threshold ≤ m.confidence_score := by
  refine ⟨?_, ?_, ?_⟩
  · exact List.Pairwise.sublist (List.take_sublist _ _) (sortByConfDesc_sorted _)
  · exact List.length_take_le _ _
  · intro m hm
    have hm1 : m ∈ sortByConfDesc (deduplicate_matches
        ((gatherMatches useMl detOut probOut fuzzyOut aiOut enhance).filter
          (fun m => threshold ≤ m.confidence_score))) :=
      (List.take_sublist _ _).subset hm
    have hm2 := (sortByConfDesc_perm _).subset hm1
    have hm3 := (deduplicate_matches_sublist _).subset hm2
    simpa using (List.mem_filter.mp hm3).2

/-- Claim C1, counterexample: resolving the S1 John Doe query at the default
threshold 0.85 (with `use_ml` off) returns the deterministic exact match
with confidence 1.0, which exceeds the claimed upper bound 0.99. -/
theorem resolver_confidence_exceeds_099 :
    ((resolveCore (17/20) false (deterministicMatch johnDoeQuery) [] fuzzyJohnOut [] id).map
        Match.confidence_score = [1, 17/20]) ∧ ¬ ((1:ℚ) ≤ 99/100) := by
  constructor
  · have hdet : deterministicMatch johnDoeQuery =
        [⟨"IDX001234567", 1, "deterministic_exact", ["ssn"], ["DMV", "HEALTH_DEPT"]⟩,
         ⟨"IDX001234567", 19/20, "deterministic_composite",
          ["first_name", "last_name", "dob"], ["DMV", "HEALTH_DEPT"]⟩] := rfl
    norm_num [resolveCore, gatherMatches, hdet, maxConfScore, deduplicate_matches,
      dedupAux, sortByConfDesc, insertByConf, fuzzyJohnOut, List.filter, List.foldl,
      max_def]
  · norm_num

/-- Claim C1, witness: the threshold lower bound of
`resolver_matches_sorted_bounded`, instantiated at the counterexample's
concrete request. -/
theorem resolver_matches_sorted_bounded_witness :
    (17:ℚ)/20 ≤ (Match.mk "IDX001234567" 1 "deterministic_exact" ["ssn"]
      ["DMV", "HEALTH_DEPT"]).confidence_score := by
  refine (resolver_matches_sorted_bounded (17/20) false
      (deterministicMatch johnDoeQuery) [] fuzzyJohnOut [] id).2.2 _ ?_
  have hdet : deterministicMatch johnDoeQuery =
      [⟨"IDX001234567", 1, "deterministic_exact", ["ssn"], ["DMV", "HEALTH_DEPT"]⟩,
       ⟨"IDX001234567", 19/20, "deterministic_composite",
        ["first_name", "last_name", "dob"], ["DMV", "HEALTH_DEPT"]⟩] := rfl
  norm_num [resolveCore, gatherMatches, hdet, maxConfScore, deduplicate_matches,
    dedupAux, sortByConfDesc, insertByConf, fuzzyJohnOut, List.filter, List.foldl,
    max_def]

/-- Claim C2 (amended): the final ranking pass sorts by confidence
descending (not strictly), and matches of equal confidence keep their
prior list order — the stable sort applies no tie-break on matched-field
count or identity key; every returned confidence is at least the 0.6
minimum. -/
theorem rank_sorted_stable_no_tiebreak (ms : List Match) :
    (applyThresholdsAndRank ms).Pairwise ConfDesc ∧
      (∀ c : ℚ, (applyThresholdsAndRank ms).filter (fun m => m.confidence_score = c) =
        (ms.filter (fun m => 3/5 ≤ m.confidence_score)).filter
          (fun m => m.confidence_score = c)) ∧
      ∀ m ∈ applyThresholdsAndRank ms, 3/5 ≤ m.confidence_score := by
  refine ⟨sortByConfDesc_sorted _, fun c => sortByConfDesc_filter_eq _ c, ?_⟩
  intro m hm
  have := (sortByConfDesc_perm _).subset hm
  simpa using (List.mem_filter.mp this).2

/-- Claim C2, counterexample: two matches with equal confidence 0.8, where
the earlier one has fewer matched fields and the lexicographically larger
identity key, come out of the ranking pass in their input order — both
claimed tie-breaks (descending matched-field count, then identity key)
would have put the second match first. -/
theorem rank_ties_keep_input_order :
    applyThresholdsAndRank
        [⟨"IDXB", 4/5, "probabilistic", ["last_name"], []⟩,
         ⟨"IDXA", 4/5, "fuzzy", ["first_name", "last_name", "dob"], []⟩] =
      [⟨"IDXB", 4/5, "probabilistic", ["last_name"], []⟩,
       ⟨"IDXA", 4/5, "fuzzy", ["first_name", "last_name", "dob"], []⟩] ∧
      (Match.matched_fields ⟨"IDXB", 4/5, "probabilistic", ["last_name"], []⟩).length <
        (Match.matched_fields ⟨"IDXA", 4/5, "fuzzy",
          ["first_name", "last_name", "dob"], []⟩).length ∧
      ("IDXA").data < ("IDXB").data := by
  refine ⟨?_, by norm_num, by decide⟩
  norm_num [applyThresholdsAndRank, sortByConfDesc, insertByConf, List.filter]

/-- Claim C2, witness: `rank_sorted_stable_no_tiebreak` at concrete
inputs — the stability conjunct instantiated at the 0.8 confidence class
of the tied two-match list (the ranked output's 0.8-class equals the
filtered input's, i.e. ties stay in input order), and the 0.6 lower
bound instantiated at a member of a concrete output. -/
theorem rank_sorted_stable_no_tiebreak_witness :
    ((applyThresholdsAndRank
        [⟨"IDXB", 4/5, "probabilistic", ["last_name"], []⟩,
         ⟨"IDXA", 4/5, "fuzzy", ["first_name", "last_name", "dob"], []⟩]).filter
        (fun m => m.confidence_score = 4/5) =
      (([⟨"IDXB", 4/5, "probabilistic", ["last_name"], []⟩,
         ⟨"IDXA", 4/5, "fuzzy", ["first_name", "last_name", "dob"], []⟩] :
          List Match).filter (fun m => 3/5 ≤ m.confidence_score)).filter
        (fun m => m.confidence_score = 4/5)) ∧
      (3:ℚ)/5 ≤ (Match.mk "IDXB" (4/5) "probabilistic" ["last_name"] []).confidence_score := by
  constructor
  · exact (rank_sorted_stable_no_tiebreak
      [⟨"IDXB", 4/5, "probabilistic", ["last_name"], []⟩,
       ⟨"IDXA", 4/5, "fuzzy", ["first_name", "last_name", "dob"], []⟩]).2.1 (4/5)
  · refine (rank_sorted_stable_no_tiebreak
        [⟨"IDXB", 4/5, "probabilistic", ["last_name"], []⟩]).2.2 _ ?_
    norm_num [applyThresholdsAndRank, sortByConfDesc, insertByConf, List.filter]

/-- A probabilistic-only match for an identity, used to exhibit the
dedup-before-sort behaviour of the resolver. -/
def probSurvivor : Match := ⟨"IDX002345678", 4/5, "probabilistic", [], []⟩

/-- A later fuzzy match for the same identity with a higher confidence. -/
def fuzzyDiscarded : Match := ⟨"IDX002345678", 17/20, "fuzzy", [], []⟩

/-- Claim C10: the resolver deduplicates by identity key before sorting and
keeps the first occurrence of each key in matcher execution order
(deterministic, then probabilistic, then fuzzy, then AI-hybrid): every
returned match is the first above-threshold occurrence of its identity
key in the gathered list; in particular (second conjunct) an identity
scored by both the probabilistic matcher at 0.8 and the fuzzy matcher at
0.85 survives with the earlier, lower confidence and the earlier match
type. -/
theorem resolver_dedup_keeps_first_occurrence :
    (∀ (threshold : ℚ) (useMl : Bool)
      (detOut probOut fuzzyOut aiOut : List Match)
      (enhance : List Match → List Match) (m : Match),
      m ∈ resolveCore threshold useMl detOut probOut fuzzyOut aiOut enhance →
        ((gatherMatches useMl detOut probOut fuzzyOut aiOut enhance).filter
            (fun x => threshold ≤ x.confidence_score)).find?
          (fun x => x.identity_id = m.identity_id) = some m) ∧
      resolveCore (7/10) false [] [probSurvivor] [fuzzyDiscarded] [] id = [probSurvivor] ∧
      probSurvivor.confidence_score < fuzzyDiscarded.confidence_score := by
  refine ⟨?_, ?_, by norm_num [probSurvivor, fuzzyDiscarded]⟩
  · intro threshold useMl detOut probOut fuzzyOut aiOut enhance m hm
    have hm1 : m ∈ sortByConfDesc (deduplicate_matches
        ((gatherMatches useMl detOut probOut fuzzyOut aiOut enhance).filter
          (fun x => threshold ≤ x.confidence_score))) :=
      (List.take_sublist _ _).subset hm
    have hm2 := (sortByConfDesc_perm _).subset hm1
    have hnd : ((deduplicate_matches
        ((gatherMatches useMl detOut probOut fuzzyOut aiOut enhance).filter
          (fun x => threshold ≤ x.confidence_score))).map Match.identity_id).Nodup :=
      (dedupAux_nodup_ids [] _).1
    have hfind := find?_eq_self_of_nodup_ids m
      (deduplicate_matches
        ((gatherMatches useMl detOut probOut fuzzyOut aiOut enhance).filter
          (fun x => threshold ≤ x.confidence_score))) hnd hm2
    rwa [deduplicate_matches_find?] at hfind
  · norm_num [resolveCore, gatherMatches, maxConfScore, deduplicate_matches, dedupAux,
      sortByConfDesc, insertByConf, probSurvivor, fuzzyDiscarded, List.filter]

/-- Claim C10, witness: the first-occurrence property applied at the
concrete probabilistic/fuzzy collision of the theorem's second conjunct. -/
theorem resolver_dedup_keeps_first_occurrence_witness :
    ((gatherMatches false [] [probSurvivor] [fuzzyDiscarded] [] id).filter
        (fun x => (7:ℚ)/10 ≤ x.confidence_score)).find?
      (fun x => x.identity_id = probSurvivor.identity_id) = some probSurvivor := by
  refine resolver_dedup_keeps_first_occurrence.1 (7/10) false [] [probSurvivor]
    [fuzzyDiscarded] [] id probSurvivor ?_
  norm_num [resolveCore, gatherMatches, maxConfScore, deduplicate_matches, dedupAux,
    sortByConfDesc, insertByConf, probSurvivor, fuzzyDiscarded, List.filter]

/-! ## Date-of-birth field similarities (`probabilistic.py`, `ai_hybrid.py`)

Parsed `%Y-%m-%d` dates are abstracted to epoch-day numbers, so the
`.days` of a date difference is the integer difference. -/

/-- Embedding of `ProbabilisticMatcher._calculate_field_similarity` for the `dob`
field (probabilistic.py lines 60–76), on two parseable dates. -/
def probDobSimilarity (d1 d2 : ℤ) : ℚ :=
  let daysDiff := (d1 - d2).natAbs
  if daysDiff = 0 then 1
  else if daysDiff ≤ 30 then 9/10
  else if daysDiff ≤ 365 then 7/10
  else 3/10

/-- Embedding of `AIHybridMatcher._calculate_date_similarity` (ai_hybrid.py lines
687–718) on two parseable dates; the early equal-string return coincides
with a zero day difference. -/
def aiDateSimilarity (d1 d2 : ℤ) : ℚ :=
  if d1 = d2 then 1
  else
    let diffDays := (d1 - d2).natAbs
    if diffDays = 0 then 1
    else if diffDays ≤ 7 then 9/10
    else if diffDays ≤ 30 then 7/10
    else if diffDays ≤ 365 then 3/10
    else 0

/-- The step function stated by the claim (spec §4.4): 1.0 at equality,
0.9 up to 7 days, 0.7 up to 30, 0.3 up to 365, 0.0 beyond. -/
def claimedDateStep (diff : ℕ) : ℚ :=
  if diff = 0 then 1
  else if diff ≤ 7 then 9/10
  else if diff ≤ 30 then 7/10
  else if diff ≤ 365 then 3/10
  else 0

/-- The step function the probabilistic matcher actually implements:
1.0 at equality, 0.9 up to 30 days, 0.7 up to 365, 0.3 beyond. -/
def probDateStep (diff : ℕ) : ℚ :=
  if diff = 0 then 1
  else if diff ≤ 30 then 9/10
  else if diff ≤ 365 then 7/10
  else 3/10

/-- Claim C4 (amended): the claimed five-tier step function is the one of
the AI-hybrid matcher's date similarity; the probabilistic matcher's
date-of-birth similarity follows the coarser four-tier step function
(no ≤ 7-day tier, floor 0.3 instead of 0.0). -/
theorem date_similarity_step_functions (d1 d2 : ℤ) :
    aiDateSimilarity d1 d2 = claimedDateStep (d1 - d2).natAbs ∧
      probDobSimilarity d1 d2 = probDateStep (d1 - d2).natAbs := by
  constructor
  · by_cases h : d1 = d2
    · subst h
      simp [aiDateSimilarity, claimedDateStep]
    · simp [aiDateSimilarity, claimedDateStep, h]
  · rfl

/-- Claim C4, counterexample: at a 20-day difference the probabilistic
matcher returns 0.9 where the claimed step function gives 0.7, and at a
400-day difference it returns 0.3 where the claim demands 0.0. -/
theorem prob_dob_similarity_deviates :
    probDobSimilarity 0 20 = 9/10 ∧ claimedDateStep 20 = 7/10 ∧
      probDobSimilarity 0 400 = 3/10 ∧ claimedDateStep 400 = 0 ∧
      ((9:ℚ)/10 ≠ 7/10) ∧ ((3:ℚ)/10 ≠ 0) := by
  refine ⟨?_, ?_, ?_, ?_, by norm_num, by norm_num⟩ <;>
    norm_num [probDobSimilarity, claimedDateStep]

/-! ## The cache fingerprint and the `IntelligentCache`
(`services/realtime_processor.py`) -/

/-- Embedding of `str.strip()`: remove leading and trailing whitespace. -/
def stripStr (s : String) : String :=
  ⟨((s.data.dropWhile Char.isWhitespace).reverse.dropWhile Char.isWhitespace).reverse⟩

/-- Modelled from the spec (§4.1 Normalizer): the canonical form of a
name up to case — trim and case-fold.  Only equality of normalized forms
matters to the cache claim; the repository's cache path itself performs
no normalization. -/
def normalizeName (s : String) : String := lowerStr (stripStr s)

/-- One insertion step of sorting the field list by key, ascending
(`json.dumps(..., sort_keys=True)`); dict keys are unique, so ties do
not arise. -/
def insertPairByKey (p : String × String) :
    List (String × String) → List (String × String)
  | [] => [p]
  | q :: qs => if q.1.data < p.1.data then q :: insertPairByKey p qs else p :: q :: qs

/-- Sort the query's field list by key, ascending. -/
def sortPairsByKey : List (String × String) → List (String × String)
  | [] => []
  | p :: ps => insertPairByKey p (sortPairsByKey ps)

/-- Render the key-sorted field list. -/
def renderPairs : List (String × String) → String
  | [] => ""
  | (k, v) :: ps => "\"" ++ k ++ "\": \"" ++ v ++ "\"; " ++ renderPairs ps

/-- Embedding of `IntelligentCache._generate_key`: the SHA-256 hex digest of the
key-sorted JSON serialization of the **raw** demographic data.  The
digest is modelled as an injective rendering of the key-sorted field
list: SHA-256 is deterministic, and distinct serializations are taken to
be collision-free. -/
def generate_key (q : List (String × String)) : String :=
  renderPairs (sortPairsByKey q)

/-- The `IntelligentCache` state: the three dictionaries of the source,
plus the capacity and default TTL. -/
structure IntelligentCache where
  cache : List (String × List Match)
  access_times : List (String × ℚ)
  expiry_times : List (String × ℚ)
  max_size : ℕ
  default_ttl : ℚ

/-- Python dict assignment: replace in place if the key is present,
else append. -/
def setKey {α : Type} : List (String × α) → String → α → List (String × α)
  | [], k, v => [(k, v)]
  | (k', v') :: rest, k, v =>
    if k' = k then (k, v) :: rest else (k', v') :: setKey rest k v

/-- Python dict `pop(key, None)`. -/
def removeKey {α : Type} (l : List (String × α)) (k : String) : List (String × α) :=
  l.filter (fun p => ¬ p.1 = k)

/-- Embedding of `min(access_times.keys(), key=lambda k: access_times[k])`: the first
key of minimal access time. -/
def lruKey : List (String × ℚ) → Option String
  | [] => none
  | (k, t) :: rest =>
    some ((rest.foldl (fun best p => if p.2 < best.2 then p else best) (k, t)).1)

/-- Embedding of `IntelligentCache._remove_key`. -/
def cacheRemoveKey (c : IntelligentCache) (key : String) : IntelligentCache :=
  { c with cache := removeKey c.cache key,
           access_times := removeKey c.access_times key,
           expiry_times := removeKey c.expiry_times key }

/-- Embedding of `IntelligentCache._evict_lru`. -/
def evictLru (c : IntelligentCache) : IntelligentCache :=
  match lruKey c.access_times with
  | none => c
  | some k => cacheRemoveKey c k

/-- Embedding of `IntelligentCache.get`: miss on absent key; lazy removal of expired
entries; LRU access-time update on a hit. -/
def cacheGet (c : IntelligentCache) (now : ℚ) (q : List (String × String)) :
    Option (List Match) × IntelligentCache :=
  let key := generate_key q
  match c.cache.lookup key with
  | none => (none, c)
  | some results =>
    if ((c.expiry_times.lookup key).getD 0) < now then (none, cacheRemoveKey c key)
    else (some results, { c with access_times := setKey c.access_times key now })

/-- Embedding of `IntelligentCache.put`: evict the least-recently-used entry when at
capacity and the key is new, then store results, access time and expiry
(`ttl or default_ttl`, with Python's falsy 0). -/
def cachePut (c : IntelligentCache) (now : ℚ) (q : List (String × String))
    (results : List Match) (ttl : Option ℚ) : IntelligentCache :=
  let key := generate_key q
  let t := match ttl with
    | some v => if v = 0 then c.default_ttl else v
    | none => c.default_ttl
  let c1 := if c.max_size ≤ c.cache.length ∧ c.cache.lookup key = none
    then evictLru c else c
  { c1 with cache := setKey c1.cache key results,
            access_times := setKey c1.access_times key now,
            expiry_times := setKey c1.expiry_times key (now + t) }

theorem lookup_setKey_self {α : Type} (l : List (String × α)) (k : String) (v : α) :
    (setKey l k v).lookup k = some v := by
  induction l with
  | nil => simp [setKey]
  | cons p rest ih =>
    obtain ⟨k', v'⟩ := p
    by_cases h : k' = k
    · simp [setKey, h, List.lookup]
    · have hne : (k == k') = false := beq_eq_false_iff_ne.mpr (Ne.symm h)
      simp [setKey, h, List.lookup, hne, ih]

/-- Claim C3 (amended): the cache key is a deterministic digest of the
**raw** query, so a put followed by a get with the *identical* raw
demographic data within the TTL returns the stored results unchanged; it
is not computed from the normalized query, and case or whitespace
variants of a name miss each other's entries (see the counterexample). -/
theorem cache_put_get_same_raw_query (c : IntelligentCache) (now t' : ℚ)
    (q : List (String × String)) (results : List Match) (ttl : ℚ)
    (httl : ttl ≠ 0) (ht : t' ≤ now + ttl) :
    (cacheGet (cachePut c now q results (some ttl)) t' q).1 = some results := by
  have hc : (cachePut c now q results (some ttl)).cache.lookup (generate_key q)
      = some results := by
    simp only [cachePut, httl, if_neg httl]
    exact lookup_setKey_self _ _ _
  have he : (cachePut c now q results (some ttl)).expiry_times.lookup (generate_key q)
      = some (now + ttl) := by
    simp only [cachePut, httl, if_neg httl]
    exact lookup_setKey_self _ _ _
  simp only [cacheGet, hc, he, Option.getD_some]
  rw [if_neg (by exact not_lt.mpr ht)]

/-- Claim C3, witness: `cache_put_get_same_raw_query` at an empty cache,
`now = 0`, the John query, TTL 300 and a read at instant 100. -/
theorem cache_put_get_same_raw_query_witness :
    (cacheGet (cachePut ⟨[], [], [], 10000, 300⟩ 0 [("first_name", "John")]
        [probSurvivor] (some 300)) 100 [("first_name", "John")]).1 =
      some [probSurvivor] :=
  cache_put_get_same_raw_query _ 0 100 _ _ 300 (by norm_num) (by norm_num)

/-- Claim C3, counterexample: `"John"`, `"JOHN"` and `" john "` all share
the same normalized form, yet their cache fingerprints differ pairwise —
the key is computed from the raw, un-normalized query, so these queries
do *not* retrieve the same cached result. -/
theorem cache_key_ignores_normalization :
    normalizeName "John" = normalizeName "JOHN" ∧
      normalizeName "John" = normalizeName " john " ∧
      generate_key [("first_name", "John")] ≠ generate_key [("first_name", "JOHN")] ∧
      generate_key [("first_name", "John")] ≠ generate_key [("first_name", " john ")] := by
  refine ⟨by decide, by decide, by decide, by decide⟩

/-! ## Quality assessment (`services/data_quality_service.py`) -/

/-- Embedding of `len(name.split())`: number of whitespace-separated words. -/
def wordCountAux : Bool → List Char → ℕ
  | _, [] => 0
  | inWord, c :: cs =>
    if c.isWhitespace then wordCountAux false cs
    else (if inWord then 0 else 1) + wordCountAux true cs

/-- Word count of a string (`str.split()` length). -/
def wordCount (s : String) : ℕ := wordCountAux false s.data

/-- Embedding of `NameValidator.common_prefixes`. -/
def namePrefixes : List String := ["mr", "mrs", "ms", "dr", "prof", "rev"]

/-- The part of a `ValidationResult` the score aggregation consumes:
field name, validity (no issues recorded) and the field quality score. -/
structure ValidationResult where
  field_name : String
  is_valid : Bool
  quality_score : ℚ
  deriving DecidableEq, Repr

/-- Embedding of `NameValidator.validate_name`: empty names are invalid with score 0;
otherwise deductions accumulate — 20 per suspicious pattern (digits;
characters outside letters/whitespace/apostrophe/hyphen/period), 15 for
length < 2 else 5 for length > 50, 5 for more than two words in a
first/last name (suggestion only), 10 for a title used as a first name
(suggestion only) — and the score is `max(100 - deductions, 0)`.
Validity means no issue fired (suggestions do not affect it). -/
def validateName (name : String) (fieldName : String) : ValidationResult :=
  if (stripStr name).data.isEmpty then ⟨fieldName, false, 0⟩
  else
    let original := stripStr name
    let working := lowerStr original
    let pat1 := working.data.any Char.isDigit
    let pat2 := working.data.any fun c =>
      !(c.isAlpha || c.isWhitespace || c == '\'' || c == '-' || c == '.')
    let len := original.data.length
    let deductions : ℕ :=
      (if pat1 then 20 else 0) + (if pat2 then 20 else 0) +
      (if len < 2 then 15 else if 50 < len then 5 else 0) +
      (if (fieldName = "first_name" || fieldName = "last_name") && 2 < wordCount original
        then 5 else 0) +
      (if fieldName = "first_name" && working ∈ namePrefixes then 10 else 0)
    let valid := !pat1 && !pat2 && !(len < 2 : Bool) && !(50 < len : Bool)
    ⟨fieldName, valid, max (100 - (deductions : ℚ)) 0⟩

/-- Embedding of `SSNValidator.validate_ssn`: an empty SSN is worth 60 when a partial
SSN is acceptable; four digits give a *valid* result with score 80; nine
digits score 100, or 70 when the area/group/serial sub-ranges are
structurally invalid (area 000/666/9xx, group 00, serial 0000); any
other length is invalid with score 60. -/
def validateSsn (ssn : String) (partialOk : Bool) : ValidationResult :=
  if ssn.data.isEmpty then ⟨"ssn", partialOk, if partialOk then 60 else 0⟩
  else
    let digits := ssn.data.filter Char.isDigit
    if digits.length = 4 then
      if partialOk then ⟨"ssn", true, 80⟩ else ⟨"ssn", false, 40⟩
    else if digits.length = 9 then
      let area := digits.take 3
      let group := (digits.drop 3).take 2
      let serial := digits.drop 5
      let bad := area = ['0', '0', '0'] ∨ area = ['6', '6', '6'] ∨
        digits.take 1 = ['9'] ∨ group = ['0', '0'] ∨ serial = ['0', '0', '0', '0']
      if bad then ⟨"ssn", false, 70⟩ else ⟨"ssn", true, 100⟩
    else ⟨"ssn", false, 60⟩

/-- Embedding of `DataQualityService.field_weights`. -/
def fieldWeights : List (String × ℚ) :=
  [("first_name", 3/20), ("last_name", 3/20), ("dob", 1/5), ("ssn", 1/4),
   ("address", 3/20), ("phone", 1/20), ("email", 1/20)]

/-- Embedding of `self.field_weights.get(result.field_name, 0.05)`. -/
def fieldWeight (f : String) : ℚ := (fieldWeights.lookup f).getD (1/20)

/-- The validator results collected by `assess_data_quality` for the
fields of the record; restricted to the name and SSN validators — the
date/address/phone/email validators are outside the claims' scope (the
phone validator in particular calls the external `phonenumbers`
library). -/
def qualityFieldResults (record : List (String × String)) : List ValidationResult :=
  (match record.lookup "first_name" with
   | some v => [validateName v "first_name"]
   | none => []) ++
  (match record.lookup "last_name" with
   | some v => [validateName v "last_name"]
   | none => []) ++
  (match record.lookup "ssn" with
   | some v => [validateSsn v true]
   | none => [])

/-- Embedding of `weighted_score`: Σ scoreᵢ · weightᵢ over the produced results. -/
def weightedScore (results : List ValidationResult) : ℚ :=
  (results.map fun r => r.quality_score * fieldWeight r.field_name).sum

/-- Embedding of `total_weight`: Σ weightᵢ over the produced results. -/
def totalWeight (results : List ValidationResult) : ℚ :=
  (results.map fun r => fieldWeight r.field_name).sum

/-- Embedding of `overall_score = weighted_score / total_weight if total_weight > 0 else 0`. -/
def overallScore (results : List ValidationResult) : ℚ :=
  if 0 < totalWeight results then weightedScore results / totalWeight results else 0

/-- Embedding of `DataQualityService.assess_data_quality`, reduced to its overall
score. -/
def assess_data_quality (record : List (String × String)) : ℚ :=
  overallScore (qualityFieldResults record)

theorem lookup_mem {α : Type} (l : List (String × α)) (k : String) (v : α)
    (h : l.lookup k = some v) : (k, v) ∈ l := by
  induction l with
  | nil => simp [List.lookup] at h
  | cons p rest ih =>
    obtain ⟨k', v'⟩ := p
    by_cases hk : k = k'
    · subst hk
      simp [List.lookup] at h
      simp [h]
    · have hne : (k == k') = false := beq_eq_false_iff_ne.mpr hk
      simp only [List.lookup, hne] at h
      exact List.mem_cons_of_mem _ (ih h)

theorem fieldWeight_pos (f : String) : 0 < fieldWeight f := by
  unfold fieldWeight
  cases h : fieldWeights.lookup f with
  | none => norm_num
  | some w =>
    have hmem := lookup_mem _ _ _ h
    simp only [Option.getD_some]
    fin_cases hmem <;> norm_num

theorem totalWeight_nonneg (results : List ValidationResult) :
    0 ≤ totalWeight results := by
  apply List.sum_nonneg
  intro x hx
  rcases List.mem_map.mp hx with ⟨r, _, rfl⟩
  exact (fieldWeight_pos _).le

theorem weightedScore_le (results : List ValidationResult)
    (hb : ∀ x ∈ results, x.quality_score ≤ 100) :
    weightedScore results ≤ 100 * totalWeight results := by
  induction results with
  | nil => simp [weightedScore, totalWeight]
  | cons x xs ih =>
    have hx := hb x (List.mem_cons_self x xs)
    have hxs := ih fun y hy => hb y (List.mem_cons_of_mem _ hy)
    have hw := fieldWeight_pos x.field_name
    have h1 : weightedScore (x :: xs) =
        x.quality_score * fieldWeight x.field_name + weightedScore xs := by
      simp [weightedScore]
    have h2 : totalWeight (x :: xs) = fieldWeight x.field_name + totalWeight xs := by
      simp [totalWeight]
    nlinarith [hx, hxs, hw.le]

/-- Claim C5 (amended): the overall quality score is the weighted average
of the produced field scores, so adding a field whose validation score
is 100 (perfectly valid, no deductions) never decreases it; a field that
is merely *valid* but carries deductions — such as a partial SSN scoring
80 — can decrease the overall score (see the counterexample), so the
claimed monotonicity in valid fields does not hold. -/
theorem quality_monotone_perfect_field (results : List ValidationResult)
    (r : ValidationResult) (hbound : ∀ x ∈ results, x.quality_score ≤ 100)
    (hr : r.quality_score = 100) :
    overallScore results ≤ overallScore (results ++ [r]) := by
  have hw := fieldWeight_pos r.field_name
  have hW := totalWeight_nonneg results
  have hS := weightedScore_le results hbound
  have hwa : totalWeight (results ++ [r]) =
      totalWeight results + fieldWeight r.field_name := by
    simp [totalWeight]
  have hsa : weightedScore (results ++ [r]) =
      weightedScore results + 100 * fieldWeight r.field_name := by
    simp [weightedScore, hr]
  by_cases hpos : 0 < totalWeight results
  · have hpos' : 0 < totalWeight (results ++ [r]) := by rw [hwa]; positivity
    rw [overallScore, overallScore, if_pos hpos, if_pos hpos', hwa, hsa,
      div_le_div_iff₀ hpos (by rw [← hwa]; exact hpos')]
    nlinarith [hS, hw.le, hpos.le]
  · have hW0 : totalWeight results = 0 := le_antisymm (not_lt.mp hpos) hW
    have hnil : results = [] := by
      cases results with
      | nil => rfl
      | cons x xs =>
        exfalso
        have h1 : totalWeight (x :: xs) = fieldWeight x.field_name + totalWeight xs := by
          simp [totalWeight]
        have h2 := fieldWeight_pos x.field_name
        have h3 := totalWeight_nonneg xs
        nlinarith [hW0, h1]
    subst hnil
    have hpos' : 0 < totalWeight ([] ++ [r]) := by
      simpa [totalWeight] using hw
    rw [overallScore, overallScore, if_neg hpos, if_pos hpos']
    have hval : weightedScore ([] ++ [r]) = 100 * fieldWeight r.field_name := by
      simp [weightedScore, hr]
    rw [hval]
    positivity

/-- Claim C5, counterexample: the record John/Doe scores a perfect 100;
adding the *present and valid* partial SSN `"6789"` (validity is
explicit in the first conjunct) drops the overall score to
1000/11 ≈ 90.9 — adding a valid field decreased the quality score. -/
theorem quality_drops_on_valid_partial_ssn :
    (validateSsn "6789" true).is_valid = true ∧
      assess_data_quality [("first_name", "John"), ("last_name", "Doe")] = 100 ∧
      assess_data_quality
        [("first_name", "John"), ("last_name", "Doe"), ("ssn", "6789")] = 1000/11 ∧
      (1000 : ℚ)/11 < 100 := by
  have h1 : validateName "John" "first_name" =
      ⟨"first_name", true, max (100 - ((0 : ℕ) : ℚ)) 0⟩ := rfl
  have h2 : validateName "Doe" "last_name" =
      ⟨"last_name", true, max (100 - ((0 : ℕ) : ℚ)) 0⟩ := rfl
  have h3 : validateSsn "6789" true = ⟨"ssn", true, 80⟩ := rfl
  have hw1 : fieldWeight "first_name" = 3/20 := rfl
  have hw2 : fieldWeight "last_name" = 3/20 := rfl
  have hw3 : fieldWeight "ssn" = 1/4 := rfl
  refine ⟨by rw [h3], ?_, ?_, by norm_num⟩
  · have hq : qualityFieldResults [("first_name", "John"), ("last_name", "Doe")] =
        [validateName "John" "first_name", validateName "Doe" "last_name"] := rfl
    rw [assess_data_quality, hq, h1, h2]
    norm_num [overallScore, weightedScore, totalWeight, hw1, hw2, max_def]
  · have hq : qualityFieldResults
        [("first_name", "John"), ("last_name", "Doe"), ("ssn", "6789")] =
        [validateName "John" "first_name", validateName "Doe" "last_name",
         validateSsn "6789" true] := rfl
    rw [assess_data_quality, hq, h1, h2, h3]
    norm_num [overallScore, weightedScore, totalWeight, hw1, hw2, hw3, max_def]

/-- Claim C5, witness: `quality_monotone_perfect_field` applied to the
singleton partial-SSN record extended by a perfect first name. -/
theorem quality_monotone_perfect_field_witness :
    overallScore [⟨"ssn", true, 80⟩] ≤
      overallScore [⟨"ssn", true, 80⟩, ⟨"first_name", true, 100⟩] := by
  have h := quality_monotone_perfect_field [⟨"ssn", true, 80⟩]
    ⟨"first_name", true, 100⟩
    (by intro x hx; rcases List.mem_singleton.mp hx with rfl; norm_num) rfl
  simpa using h

/-! ## Batch jobs: lifecycle and queue
(`services/batch_processing_service.py`) -/

/-- Embedding of `JobStatus`. -/
inductive JobStatus
  | queued | running | paused | completed | failed | cancelled
  deriving DecidableEq, Repr

/-- Embedding of `JobPriority`. -/
inductive JobPriority
  | low | normal | high | urgent
  deriving DecidableEq, Repr

/-- A `BatchJob`, reduced to the lifecycle-relevant fields: status,
priority, the four counters and the completion instant. -/
structure BatchJob where
  job_id : String
  status : JobStatus
  priority : JobPriority
  total_records : ℕ
  processed_records : ℕ
  successful_records : ℕ
  failed_records : ℕ
  completed_at : Option ℚ := none
  deriving DecidableEq, Repr

/-- The mutable state of `BatchProcessingService`: the job registry,
the priority queue of job ids, and the running set. -/
structure BatchState where
  jobs : List (String × BatchJob)
  job_queue : List String
  running_jobs : List String
  deriving DecidableEq, Repr

/-- Embedding of `self.jobs[jid].priority` as used while counting urgent queue
entries; queued ids are always registered, so the `none` fallback is
unreachable in the source (it would raise `KeyError`). -/
def prioOf (s : BatchState) (jid : String) : JobPriority :=
  match s.jobs.lookup jid with
  | some job => job.priority
  | none => JobPriority.normal

/-- Embedding of `JobStatus` values that are terminal for `cancel_job`. -/
def terminalStatuses : List JobStatus :=
  [JobStatus.completed, JobStatus.failed, JobStatus.cancelled]

/-- Embedding of `BatchProcessingService._add_to_queue`: urgent jobs are inserted at
index 0, high jobs at the index equal to the number of urgent jobs in
the queue, all others are appended. -/
def addToQueue (s : BatchState) (jid : String) : BatchState :=
  match s.jobs.lookup jid with
  | none => s
  | some job =>
    let q := s.job_queue
    let q' :=
      if job.priority = JobPriority.urgent then jid :: q
      else if job.priority = JobPriority.high then
        let uc := q.countP fun j => prioOf s j = JobPriority.urgent
        q.take uc ++ jid :: q.drop uc
      else q ++ [jid]
    { s with job_queue := q' }

/-- Embedding of `BatchProcessingService._get_next_job` on the queue: pop from the
front, skipping entries whose job is no longer `queued` (cancelled jobs
remain in `self.jobs` but are passed over). -/
def getNextJobAux (jobs : List (String × BatchJob)) :
    List String → Option String × List String
  | [] => (none, [])
  | jid :: rest =>
    match jobs.lookup jid with
    | some job =>
      if job.status = JobStatus.queued then (some jid, rest)
      else getNextJobAux jobs rest
    | none => getNextJobAux jobs rest

/-- Embedding of `BatchProcessingService._get_next_job`. -/
def getNextJob (s : BatchState) : Option String × BatchState :=
  let r := getNextJobAux s.jobs s.job_queue
  (r.1, { s with job_queue := r.2 })

/-- Embedding of `BatchProcessingService.cancel_job`: missing or terminal jobs are
rejected untouched; otherwise the status becomes `cancelled`, the
completion instant is stamped and the job leaves queue and running
set. -/
def cancel_job (s : BatchState) (now : ℚ) (jid : String) : Bool × BatchState :=
  match s.jobs.lookup jid with
  | none => (false, s)
  | some job =>
    if job.status ∈ terminalStatuses then (false, s)
    else
      (true,
       { jobs := setKey s.jobs jid
           { job with status := JobStatus.cancelled, completed_at := some now },
         job_queue := s.job_queue.erase jid,
         running_jobs := s.running_jobs.erase jid })

/-- Embedding of `BatchProcessingService.pause_job`: only a `running` job can be
paused. -/
def pause_job (s : BatchState) (jid : String) : Bool × BatchState :=
  match s.jobs.lookup jid with
  | none => (false, s)
  | some job =>
    if job.status = JobStatus.running then
      (true, { s with jobs := setKey s.jobs jid { job with status := JobStatus.paused } })
    else (false, s)

/-- Embedding of `BatchProcessingService.resume_job`: only a `paused` job can be
resumed; it becomes `queued` and re-enters the queue. -/
def resume_job (s : BatchState) (jid : String) : Bool × BatchState :=
  match s.jobs.lookup jid with
  | none => (false, s)
  | some job =>
    if job.status = JobStatus.paused then
      let s1 := { s with jobs := setKey s.jobs jid { job with status := JobStatus.queued } }
      (true, addToQueue s1 jid)
    else (false, s)

/-- Claim C6: a batch job in a terminal status (`completed`, `failed` or
`cancelled`) is rejected by `cancel`, `pause` and `resume`, each
returning failure and leaving the whole service state — job statuses,
counters, queue and running set — unchanged; in particular a cancelled
or failed job never re-enters the queue. -/
theorem terminal_jobs_reject_mutators (s : BatchState) (now : ℚ) (jid : String)
    (job : BatchJob) (hlook : s.jobs.lookup jid = some job)
    (hterm : job.status ∈ terminalStatuses) :
    cancel_job s now jid = (false, s) ∧ pause_job s jid = (false, s) ∧
      resume_job s jid = (false, s) := by
  simp only [terminalStatuses, List.mem_cons, List.not_mem_nil, or_false] at hterm
  rcases hterm with h | h | h <;>
    exact ⟨by simp [cancel_job, hlook, h, terminalStatuses],
           by simp [pause_job, hlook, h],
           by simp [resume_job, hlook, h]⟩

/-- A completed job in a one-job registry, for the witness. -/
def doneJob : BatchJob := ⟨"J", JobStatus.completed, JobPriority.normal, 5, 5, 4, 1, none⟩

/-- Claim C6, witness: `terminal_jobs_reject_mutators` at a concrete
registry holding one completed job. -/
theorem terminal_jobs_reject_mutators_witness :
    cancel_job ⟨[("J", doneJob)], [], []⟩ 0 "J" = (false, ⟨[("J", doneJob)], [], []⟩) ∧
      pause_job ⟨[("J", doneJob)], [], []⟩ "J" = (false, ⟨[("J", doneJob)], [], []⟩) ∧
      resume_job ⟨[("J", doneJob)], [], []⟩ "J" = (false, ⟨[("J", doneJob)], [], []⟩) :=
  terminal_jobs_reject_mutators ⟨[("J", doneJob)], [], []⟩ 0 "J" doneJob rfl (by decide)

/-! ### Queue ordering -/

/-- The ordering the insertion discipline actually maintains between two
queue positions: anything in front of an urgent job is urgent, and
anything in front of a high job is high or urgent.  (Normal and low jobs
are not separated.) -/
def QueueRel (s : BatchState) (a b : String) : Prop :=
  (prioOf s b = JobPriority.urgent → prioOf s a = JobPriority.urgent) ∧
    (prioOf s b = JobPriority.high →
      prioOf s a = JobPriority.high ∨ prioOf s a = JobPriority.urgent)

instance (s : BatchState) : DecidableRel (QueueRel s) := fun _ _ => by
  unfold QueueRel; infer_instance

/-- The queue invariant: urgent jobs precede all others, and high jobs
precede all normal and low jobs. -/
def QueueInv (s : BatchState) : Prop := s.job_queue.Pairwise (QueueRel s)

instance (s : BatchState) : Decidable (QueueInv s) := by
  unfold QueueInv; infer_instance

/-- Under the invariant, the urgent entries form exactly the prefix of
length `countP urgent`. -/
theorem urgent_prefix (s : BatchState) (q : List String)
    (hq : q.Pairwise (QueueRel s)) :
    q.countP (fun j => prioOf s j = JobPriority.urgent) =
        (q.takeWhile (fun j => prioOf s j = JobPriority.urgent)).length ∧
      ∀ b ∈ q.dropWhile (fun j => prioOf s j = JobPriority.urgent),
        ¬ prioOf s b = JobPriority.urgent := by
  induction q with
  | nil => simp
  | cons x xs ih =>
    rcases List.pairwise_cons.mp hq with ⟨hx, hxs⟩
    rcases ih hxs with ⟨ihc, ihd⟩
    by_cases hxu : prioOf s x = JobPriority.urgent
    · refine ⟨?_, ?_⟩
      · rw [List.countP_cons, List.takeWhile_cons_of_pos (by simpa using hxu)]
        simp [hxu, ihc]
      · intro b hb
        rw [List.dropWhile_cons_of_pos (by simpa using hxu)] at hb
        exact ihd b hb
    · have hnone : ∀ b ∈ x :: xs, ¬ prioOf s b = JobPriority.urgent := by
        intro b hb
        rcases List.mem_cons.mp hb with rfl | hb
        · exact hxu
        · intro hbu
          exact hxu ((hx b hb).1 hbu)
      refine ⟨?_, ?_⟩
      · rw [List.takeWhile_cons_of_neg (by simpa using hxu)]
        have h0 : (x :: xs).countP (fun j => decide (prioOf s j = JobPriority.urgent)) = 0 := by
          rw [List.countP_eq_zero]
          intro a ha
          simpa using hnone a ha
        simpa using h0
      · rw [List.dropWhile_cons_of_neg (by simpa using hxu)]
        exact hnone

/-- Claim C7 (amended): `_add_to_queue` preserves the ordering invariant
that urgent jobs precede all non-urgent jobs and high jobs precede all
normal and low jobs, and it never touches the registry.  The claimed
full priority order does not hold: normal and low jobs share one FIFO
tail (a queued low job submitted earlier is dequeued before a later
normal job), and urgent — likewise high — jobs of equal priority are
inserted in front of each other, i.e. dequeued in reverse submission
order (see the counterexample). -/
theorem addToQueue_preserves_order (s : BatchState) (jid : String)
    (hinv : QueueInv s) :
    QueueInv (addToQueue s jid) ∧ (addToQueue s jid).jobs = s.jobs := by
  have hjobs : (addToQueue s jid).jobs = s.jobs := by
    unfold addToQueue
    cases s.jobs.lookup jid <;> rfl
  have hprioEq : ∀ x, prioOf (addToQueue s jid) x = prioOf s x := by
    intro x
    unfold prioOf
    rw [hjobs]
  have hrel : ∀ a b : String, QueueRel s a b → QueueRel (addToQueue s jid) a b := by
    intro a b h
    unfold QueueRel at h ⊢
    rw [hprioEq, hprioEq]
    exact h
  refine ⟨?_, hjobs⟩
  refine List.Pairwise.imp (fun {a b} h => hrel a b h) ?_
  show ((addToQueue s jid).job_queue).Pairwise (QueueRel s)
  unfold addToQueue
  cases hlook : s.jobs.lookup jid with
  | none => exact hinv
  | some job =>
    show (if job.priority = JobPriority.urgent then jid :: s.job_queue
          else if job.priority = JobPriority.high then
            (s.job_queue.take
              (s.job_queue.countP fun j => prioOf s j = JobPriority.urgent)) ++
              jid :: (s.job_queue.drop
                (s.job_queue.countP fun j => prioOf s j = JobPriority.urgent))
          else s.job_queue ++ [jid]).Pairwise (QueueRel s)
    have hprio : prioOf s jid = job.priority := by simp [prioOf, hlook]
    by_cases hu : job.priority = JobPriority.urgent
    · rw [if_pos hu]
      refine List.pairwise_cons.mpr ⟨?_, hinv⟩
      intro b _
      constructor
      · intro _; rw [hprio, hu]
      · intro _; right; rw [hprio, hu]
    · by_cases hh : job.priority = JobPriority.high
      · rw [if_neg hu, if_pos hh]
        rcases urgent_prefix s s.job_queue hinv with ⟨hc, hd⟩
        have htake : s.job_queue.take
            (s.job_queue.countP fun j => prioOf s j = JobPriority.urgent) =
            s.job_queue.takeWhile fun j => prioOf s j = JobPriority.urgent := by
          rw [hc]
          exact (List.prefix_iff_eq_take.mp ( List.takeWhile_prefix _)).symm
        have hdrop : s.job_queue.drop
            (s.job_queue.countP fun j => prioOf s j = JobPriority.urgent) =
            s.job_queue.dropWhile fun j => prioOf s j = JobPriority.urgent := by
          have h2 := List.drop_left
            (s.job_queue.takeWhile fun j => prioOf s j = JobPriority.urgent)
            (s.job_queue.dropWhile fun j => prioOf s j = JobPriority.urgent)
          rw [List.takeWhile_append_dropWhile] at h2
          rw [hc]
          exact h2
        rw [htake, hdrop]
        rw [List.pairwise_append]
        refine ⟨?_, ?_, ?_⟩
        · exact List.Pairwise.sublist (List.takeWhile_sublist _) hinv
        · refine List.pairwise_cons.mpr ⟨?_, ?_⟩
          · intro b hb
            constructor
            · intro hbu
              exact absurd hbu (hd b hb)
            · intro _
              left; rw [hprio, hh]
          · exact List.Pairwise.sublist (List.dropWhile_sublist _) hinv
        · intro a ha b _
          have hau : prioOf s a = JobPriority.urgent := by
            have := List.mem_takeWhile_imp ha
            simpa using this
          exact ⟨fun _ => hau, fun _ => Or.inr hau⟩
      · rw [if_neg hu, if_neg hh]
        rw [List.pairwise_append]
        refine ⟨hinv, by simp, ?_⟩
        intro a _ b hb
        rcases List.mem_singleton.mp hb with rfl
        constructor
        · intro hbu
          rw [hprio] at hbu
          exact absurd hbu hu
        · intro hbh
          rw [hprio] at hbh
          exact absurd hbh hh

/-- Registry of four queued jobs: one low, one normal, two urgent. -/
def prioCexState : BatchState :=
  ⟨[("L", ⟨"L", JobStatus.queued, JobPriority.low, 0, 0, 0, 0, none⟩),
    ("N", ⟨"N", JobStatus.queued, JobPriority.normal, 0, 0, 0, 0, none⟩),
    ("U1", ⟨"U1", JobStatus.queued, JobPriority.urgent, 0, 0, 0, 0, none⟩),
    ("U2", ⟨"U2", JobStatus.queued, JobPriority.urgent, 0, 0, 0, 0, none⟩)],
   [], []⟩

/-- Claim C7, counterexample: submitting a low job and then a normal job
queues them as `[L, N]` and dequeues the low job first, although the
normal job has strictly higher priority; and submitting two urgent jobs
queues them as `[U2, U1]`, so equal-priority jobs are dequeued in
reverse submission order. -/
theorem queue_violates_priority_order :
    (addToQueue (addToQueue prioCexState "L") "N").job_queue = ["L", "N"] ∧
      (getNextJob (addToQueue (addToQueue prioCexState "L") "N")).1 = some "L" ∧
      prioOf prioCexState "L" = JobPriority.low ∧
      prioOf prioCexState "N" = JobPriority.normal ∧
      (addToQueue (addToQueue prioCexState "U1") "U2").job_queue = ["U2", "U1"] ∧
      (getNextJob (addToQueue (addToQueue prioCexState "U1") "U2")).1 = some "U2" := by
  decide

/-- Claim C7, witness: the preserved ordering invariant at a concrete
insertion of a normal job behind an urgent one. -/
theorem addToQueue_preserves_order_witness :
    QueueInv (addToQueue ⟨prioCexState.jobs, ["U1"], []⟩ "N") ∧
      (addToQueue ⟨prioCexState.jobs, ["U1"], []⟩ "N").jobs = prioCexState.jobs :=
  addToQueue_preserves_order ⟨prioCexState.jobs, ["U1"], []⟩ "N" (by decide)

/-! ## Sliding-window rate limiting (`middleware/rate_limiting.py`) -/

/-- A `RateLimit`: count limit, window length in seconds, and additive
burst allowance. -/
structure RateLimit where
  limit : ℕ
  window_seconds : ℚ
  burst_allowance : ℕ
  deriving DecidableEq, Repr

/-- Embedding of `RedisRateLimiter._check_memory_limit`: pop entries older than the
window from the front of the deque, count the retained entries plus the
incoming request, admit iff the count stays within `limit + burst`; the
timestamp is recorded only on admission.  Returns
`(allowed, current_count, reset_time, new deque)`; the middleware's
retry-after is `reset_time - now`. -/
def checkMemoryLimit (lim : RateLimit) (currentTime : ℚ) (requests : List ℚ) :
    Bool × ℕ × ℚ × List ℚ :=
  let windowStart := currentTime - lim.window_seconds
  let kept := requests.dropWhile fun t => t < windowStart
  let currentCount := kept.length + 1
  let effectiveLimit := lim.limit + lim.burst_allowance
  if currentCount ≤ effectiveLimit then
    (true, currentCount, currentTime + lim.window_seconds, kept ++ [currentTime])
  else
    (false, currentCount, currentTime + lim.window_seconds, kept)

/-- Run a sequence of requests through the in-memory limiter, threading
the deque; returns the per-request admission decisions and the final
deque. -/
def runRequests (lim : RateLimit) : List ℚ → List ℚ → List Bool × List ℚ
  | [], st => ([], st)
  | t :: ts, st =>
    let r := checkMemoryLimit lim t st
    let rest := runRequests lim ts r.2.2.2
    (r.1 :: rest.1, rest.2)

/-- Unfolded form of `checkMemoryLimit` (let-bindings expanded), for rewriting. -/
theorem checkMemoryLimit_eq (lim : RateLimit) (t : ℚ) (reqs : List ℚ) :
    checkMemoryLimit lim t reqs =
      if (reqs.dropWhile fun x => x < t - lim.window_seconds).length + 1 ≤
          lim.limit + lim.burst_allowance then
        (true, (reqs.dropWhile fun x => x < t - lim.window_seconds).length + 1,
         t + lim.window_seconds,
         (reqs.dropWhile fun x => x < t - lim.window_seconds) ++ [t])
      else
        (false, (reqs.dropWhile fun x => x < t - lim.window_seconds).length + 1,
         t + lim.window_seconds,
         reqs.dropWhile fun x => x < t - lim.window_seconds) := rfl

theorem dropWhile_replicate_zero (lim : RateLimit) (hw : 0 < lim.window_seconds)
    (m : ℕ) :
    (List.replicate m (0 : ℚ)).dropWhile (fun t => t < 0 - lim.window_seconds) =
      List.replicate m 0 := by
  cases m with
  | zero => simp
  | succ m' =>
    rw [List.replicate_succ]
    rw [List.dropWhile_cons_of_neg]
    simp only [decide_eq_true_eq, not_lt]
    linarith

theorem runRequests_replicate (lim : RateLimit) (hw : 0 < lim.window_seconds) :
    ∀ k m : ℕ, m + k ≤ lim.limit + lim.burst_allowance →
      runRequests lim (List.replicate k 0) (List.replicate m 0) =
        (List.replicate k true, List.replicate (m + k) 0) := by
  intro k
  induction k with
  | zero => intro m _; simp [runRequests]
  | succ n ih =>
    intro m h
    have hchk : checkMemoryLimit lim 0 (List.replicate m 0) =
        (true, m + 1, 0 + lim.window_seconds, List.replicate (m + 1) 0) := by
      rw [checkMemoryLimit_eq, dropWhile_replicate_zero lim hw]
      rw [List.length_replicate, if_pos (by omega)]
      rw [← List.replicate_succ']
    rw [List.replicate_succ, runRequests, hchk]
    rw [ih (m + 1) (by omega)]
    refine Prod.ext ?_ ?_
    · simp [List.replicate_succ]
    · simp only
      congr 1
      omega

/-- Claim C8: the in-memory sliding window admits a request iff, after
dropping entries older than the window, the retained count including the
new request does not exceed `limit + burst` (first conjunct); the
retry-after `reset_time - now` is never negative (second); and, starting
from an empty window, `limit + burst` simultaneous requests are all
admitted, the `(1 + limit + burst)`-th request inside the window is
rejected, and a request arriving after the window opens is admitted
again (remaining conjuncts). -/
theorem sliding_window_admission (lim : RateLimit) (t : ℚ) (reqs : List ℚ)
    (hw : 0 < lim.window_seconds) (hl : 1 ≤ lim.limit + lim.burst_allowance) :
    ((checkMemoryLimit lim t reqs).1 = true ↔
      (reqs.dropWhile fun x => x < t - lim.window_seconds).length + 1 ≤
        lim.limit + lim.burst_allowance) ∧
      0 ≤ (checkMemoryLimit lim t reqs).2.2.1 - t ∧
      runRequests lim (List.replicate (lim.limit + lim.burst_allowance) 0) [] =
        (List.replicate (lim.limit + lim.burst_allowance) true,
         List.replicate (lim.limit + lim.burst_allowance) 0) ∧
      (checkMemoryLimit lim 0
        (List.replicate (lim.limit + lim.burst_allowance) 0)).1 = false ∧
      (checkMemoryLimit lim (lim.window_seconds + 1)
        (List.replicate (lim.limit + lim.burst_allowance) 0)).1 = true := by
  refine ⟨?_, ?_, ?_, ?_, ?_⟩
  · rw [checkMemoryLimit_eq]
    split_ifs with h <;> simp [h]
  · rw [checkMemoryLimit_eq]
    split_ifs <;> simp <;> linarith
  · simpa using runRequests_replicate lim hw (lim.limit + lim.burst_allowance) 0
      (by omega)
  · rw [checkMemoryLimit_eq]
    rw [dropWhile_replicate_zero lim hw, List.length_replicate]
    rw [if_neg (by omega)]
  · rw [checkMemoryLimit_eq]
    have hdrop : (List.replicate (lim.limit + lim.burst_allowance) (0 : ℚ)).dropWhile
        (fun x => x < lim.window_seconds + 1 - lim.window_seconds) = [] := by
      induction lim.limit + lim.burst_allowance with
      | zero => simp
      | succ n ihn =>
        rw [List.replicate_succ, List.dropWhile_cons_of_pos (by simp)]
        exact ihn
    rw [hdrop]
    simp [hl]

/-- Claim C8, witness: the scenario conjuncts of `sliding_window_admission`
at the limit `(2, 10 s, burst 1)`: three zero-time requests are admitted,
the fourth is rejected, and a request at `10 + 1` seconds is admitted. -/
theorem sliding_window_admission_witness :
    runRequests ⟨2, 10, 1⟩ (List.replicate 3 0) [] =
        (List.replicate 3 true, List.replicate 3 0) ∧
      (checkMemoryLimit ⟨2, 10, 1⟩ 0 (List.replicate 3 0)).1 = false ∧
      (checkMemoryLimit ⟨2, 10, 1⟩ ((10 : ℚ) + 1) (List.replicate 3 0)).1 = true := by
  have h := sliding_window_admission ⟨2, 10, 1⟩ 0 [] (by norm_num) (by norm_num)
  exact ⟨h.2.2.1, h.2.2.2.1, h.2.2.2.2⟩

/-! ## Household detection and management
(`services/household_services.py`)

A person's demographics are abstracted to the identity key and the age
computed by `_calculate_age` from the date of birth (`none` when the
date does not parse); the last-name similarity helper
(`_similar_last_name`, a `SequenceMatcher` ratio) enters as an oracle
parameter. -/

/-- A corpus record as the household code consumes it. -/
structure Person where
  identity_id : String
  age : Option ℤ
  deriving DecidableEq, Repr

/-- Embedding of `HouseholdRelationship`. -/
inductive HouseholdRelationship
  | head_of_household | spouse | child | parent | sibling
  | grandparent | grandchild | other_relative | unrelated
  deriving DecidableEq, Repr

/-- A `HouseholdMember`. -/
structure HouseholdMember where
  identity_id : String
  relationship : HouseholdRelationship
  confidence_score : ℚ
  demographics : Person
  deriving DecidableEq, Repr

/-- A `Household`, reduced to the fields the claims concern. -/
structure Household where
  household_id : String
  members : List HouseholdMember
  household_size : ℕ
  has_children : Bool
  has_elderly : Bool
  household_type : String
  deriving DecidableEq, Repr

/-- Embedding of `HouseholdDetector._is_child`. -/
def isChild (p : Person) : Bool :=
  match p.age with
  | some a => a < 18
  | none => false

/-- Embedding of `HouseholdDetector._is_elderly`. -/
def isElderly (p : Person) : Bool :=
  match p.age with
  | some a => 65 ≤ a
  | none => false

/-- Embedding of `HouseholdDetector._determine_household_type`. -/
def householdType (members : List HouseholdMember) : String :=
  if members.length = 1 then "single"
  else
    let rels := members.map HouseholdMember.relationship
    if rels.contains HouseholdRelationship.spouse ||
        rels.contains HouseholdRelationship.child ||
        rels.contains HouseholdRelationship.parent then "family"
    else if rels.contains HouseholdRelationship.sibling ||
        rels.contains HouseholdRelationship.other_relative then "related"
    else "unrelated"

/-- Embedding of `HouseholdDetector._create_single_household`. -/
def createSingleHousehold (p : Person) : Household :=
  { household_id := "HH_" ++ p.identity_id,
    members := [⟨p.identity_id, HouseholdRelationship.head_of_household, 1, p⟩],
    household_size := 1,
    has_children := isChild p,
    has_elderly := isElderly p,
    household_type := "single" }

/-- Embedding of `HouseholdDetector._could_be_spouse`: age difference over 15 rules a
spouse out; with both ages known (and Python-truthy, i.e. non-zero), an
age under 16 also rules it out; otherwise possible. -/
def couldBeSpouse (p1 p2 : Person) (ageDiff : ℤ) : Bool :=
  if 15 < ageDiff then false
  else match p1.age, p2.age with
    | some a1, some a2 =>
      if a1 ≠ 0 ∧ a2 ≠ 0 ∧ (a1 < 16 ∨ a2 < 16) then false else true
    | _, _ => true

/-- Embedding of `HouseholdDetector._determine_relationship` (with
`_likely_parent_child` inlined as the constant `True` it returns, and
`_similar_last_name` as the oracle `simLast`). -/
def determineRelationship (simLast : Person → Person → Bool)
    (head member : Person) (headAge memberAge : ℤ) :
    HouseholdRelationship × ℚ :=
  let ageDiff := |headAge - memberAge|
  if couldBeSpouse head member ageDiff then (HouseholdRelationship.spouse, 17/20)
  else if memberAge < headAge ∧ 15 ≤ ageDiff then (HouseholdRelationship.child, 9/10)
  else if headAge < memberAge ∧ 15 ≤ ageDiff then (HouseholdRelationship.parent, 4/5)
  else if ageDiff ≤ 20 ∧ simLast head member then (HouseholdRelationship.sibling, 3/4)
  else if 40 ≤ ageDiff then
    if memberAge < headAge then (HouseholdRelationship.grandchild, 7/10)
    else (HouseholdRelationship.grandparent, 7/10)
  else if simLast head member then (HouseholdRelationship.other_relative, 3/5)
  else (HouseholdRelationship.unrelated, 1/2)

/-- One insertion step of the stable sort of `(person, age)` pairs by
age descending (`members_with_age.sort(key=lambda x: x[1],
reverse=True)`). -/
def insertByAge (x : Person × ℤ) : List (Person × ℤ) → List (Person × ℤ)
  | [] => [x]
  | y :: ys => if x.2 < y.2 then y :: insertByAge x ys else x :: y :: ys

/-- Stable sort of `(person, age)` pairs by age, descending. -/
def sortByAgeDesc : List (Person × ℤ) → List (Person × ℤ)
  | [] => []
  | x :: xs => insertByAge x (sortByAgeDesc xs)

/-- First pass of `_analyze_multi_person_household`: the first member of
the age-sorted list with age ≥ 18 becomes head, else the oldest member;
`none` only when no member has a parseable date of birth. -/
def analyzeHeadPair (sorted : List (Person × ℤ)) : Option (Person × ℤ) :=
  match sorted.find? (fun pa => 18 ≤ pa.2) with
  | some pa => some pa
  | none => sorted.head?

/-- Second pass of `_analyze_multi_person_household`: the head (with
confidence 0.9 for an adult head, 0.7 otherwise) followed by the other
members with their derived relationships. -/
def analyzeMembers (simLast : Person → Person → Bool)
    (headPair : Option (Person × ℤ)) (sorted : List (Person × ℤ)) :
    List HouseholdMember :=
  match headPair with
  | none => []
  | some (hp, hage) =>
    ⟨hp.identity_id, HouseholdRelationship.head_of_household,
      (if 18 ≤ hage then 9/10 else 7/10), hp⟩ ::
      (sorted.filter fun pa => ¬ pa.1.identity_id = hp.identity_id).map fun pa =>
        ⟨pa.1.identity_id, (determineRelationship simLast hp pa.1 hage pa.2).1,
         (determineRelationship simLast hp pa.1 hage pa.2).2, pa.1⟩

/-- Embedding of `HouseholdDetector._analyze_multi_person_household`: members without
a parseable date of birth are dropped, the rest are sorted by age
descending, a head is chosen and relationships are derived; the
household size is the length of the produced member list. -/
def analyzeMultiPersonHousehold (simLast : Person → Person → Bool)
    (members : List Person) (addressKey : String) : Household :=
  let sorted := sortByAgeDesc (members.filterMap fun m => m.age.map fun a => (m, a))
  let hhMembers := analyzeMembers simLast (analyzeHeadPair sorted) sorted
  { household_id := "HH_" ++ addressKey,
    members := hhMembers,
    household_size := hhMembers.length,
    has_children := hhMembers.any fun m => isChild m.demographics,
    has_elderly := hhMembers.any fun m => isElderly m.demographics,
    household_type := householdType hhMembers }

/-- Embedding of `HouseholdService.merge_households`: concatenate the member lists
onto the household with more members; no head is demoted. -/
def mergeHouseholds (h1 h2 : Household) : Household :=
  let allMembers := h1.members ++ h2.members
  let primary := if h2.members.length ≤ h1.members.length then h1 else h2
  { primary with members := allMembers, household_size := allMembers.length }

/-- Embedding of `HouseholdService.add_member_to_household`: rejected when the
identity is already a member; otherwise the member is appended, the size
incremented and the aggregate flags recomputed. -/
def addMemberToHousehold (h : Household) (p : Person)
    (rel : HouseholdRelationship) (conf : ℚ) : Option Household :=
  if h.members.any fun m => m.identity_id = p.identity_id then none
  else
    let members' := h.members ++ [⟨p.identity_id, rel, conf, p⟩]
    some { h with
      members := members',
      household_size := h.household_size + 1,
      has_children := members'.any fun m => isChild m.demographics,
      has_elderly := members'.any fun m => isElderly m.demographics }

/-- One insertion step of the stable sort of household members by age
descending, used by `_promote_new_head_of_household` (the sort key is
`_calculate_age(...) or 0`, i.e. `getD 0`; on the paths where the adult
filter has not raised, every age is parseable, so `getD 0` is the age
itself on both of the source's sort calls). -/
def insertMemberByAge (x : HouseholdMember) :
    List HouseholdMember → List HouseholdMember
  | [] => [x]
  | y :: ys =>
    if x.demographics.age.getD 0 < y.demographics.age.getD 0 then
      y :: insertMemberByAge x ys
    else x :: y :: ys

/-- Stable sort of household members by age, descending. -/
def sortMembersByAgeDesc : List HouseholdMember → List HouseholdMember
  | [] => []
  | x :: xs => insertMemberByAge x (sortMembersByAgeDesc xs)

/-- In-place mutation `member.relationship = HEAD_OF_HOUSEHOLD` on a
member object of the list: rewrite the first occurrence equal to the
target. -/
def setHeadAt : List HouseholdMember → HouseholdMember → List HouseholdMember
  | [], _ => []
  | m :: ms, target =>
    if m = target then
      { target with relationship := HouseholdRelationship.head_of_household } :: ms
    else m :: setHeadAt ms target

/-- Embedding of `HouseholdService._promote_new_head_of_household`: no-op
on an empty member list; when some member has no parseable date of
birth, the `adults` list comprehension raises `TypeError`
(`None >= 18`), modelled as `none`; otherwise the first oldest adult
(stable descending sort of the adults copy, then its first element)
becomes head, or, with no adults, the member list itself is sorted by
age descending in place and its first element becomes head.  The final
`none` arm is unreachable: the member list is non-empty there. -/
def promoteNewHead (members : List HouseholdMember) :
    Option (List HouseholdMember) :=
  if members.isEmpty then some members
  else if members.any (fun m => m.demographics.age.isNone) then none
  else
    match sortMembersByAgeDesc
        (members.filter fun m => 18 ≤ m.demographics.age.getD 0) with
    | newHead :: _ => some (setHeadAt members newHead)
    | [] =>
      match sortMembersByAgeDesc members with
      | mh :: mt =>
        some ({ mh with relationship := HouseholdRelationship.head_of_household } :: mt)
      | [] => none

/-- Embedding of `HouseholdService.remove_member_from_household`: pop
the first member with the given identity, decrement the size, and
promote a new head when the removed member was the head.  When the
promotion raises (`none`), the source's `except` swallows it and
returns `False`, but the pop and the decrement have already been
applied to the household — the second component is the household as the
caller's cache keeps it on every path. -/
def removeMemberFromHousehold (h : Household) (identityId : String) :
    Bool × Household :=
  match h.members.find? (fun m => m.identity_id = identityId) with
  | none => (false, h)
  | some removed =>
    if removed.relationship = HouseholdRelationship.head_of_household then
      match promoteNewHead (h.members.eraseP fun m => m.identity_id = identityId) with
      | some members2 =>
        (true, { h with members := members2,
                        household_size := h.household_size - 1 })
      | none =>
        (false, { h with members := h.members.eraseP (fun m => m.identity_id = identityId),
                         household_size := h.household_size - 1 })
    else
      (true, { h with members := h.members.eraseP (fun m => m.identity_id = identityId),
                      household_size := h.household_size - 1 })

/-- Head determination of `HouseholdService.split_household` on the
members being moved: an existing head is kept as is; otherwise the first
adult (no sorting here, `adults[0]` in list order) — or, with no adults,
the first moved member — has its relationship rewritten to head.  The
adult list comprehension raises `TypeError` when a moved member has no
parseable date of birth (`none`; the source's `except` then returns
`None` before any mutation). -/
def splitMovedMembers (toMove : List HouseholdMember) :
    Option (List HouseholdMember) :=
  if toMove.any (fun m => m.relationship = HouseholdRelationship.head_of_household) then
    some toMove
  else if toMove.any (fun m => m.demographics.age.isNone) then none
  else
    match toMove.filter (fun m => 18 ≤ m.demographics.age.getD 0) with
    | a :: _ => some (setHeadAt toMove a)
    | [] =>
      match toMove with
      | m0 :: _ => some (setHeadAt toMove m0)
      | [] => none

/-- Embedding of `HouseholdService.split_household`: partition the
members by the given identity set; reject when either side is empty;
the moved members (with a head determined as above) form the new
household and the remaining members stay in the original, both sizes
recomputed from the list lengths.  Returns
`(updated original, new household)`. -/
def splitHousehold (h : Household) (memberIds : List String) :
    Option (Household × Household) :=
  if (h.members.filter fun m => m.identity_id ∈ memberIds).isEmpty ||
      (h.members.filter fun m => ¬ m.identity_id ∈ memberIds).isEmpty then none
  else
    match splitMovedMembers (h.members.filter fun m => m.identity_id ∈ memberIds) with
    | none => none
    | some moved =>
      some ({ h with
              members := h.members.filter (fun m => ¬ m.identity_id ∈ memberIds),
              household_size :=
                (h.members.filter (fun m => ¬ m.identity_id ∈ memberIds)).length },
            { household_id := "HH_SPLIT",
              members := moved,
              household_size := moved.length,
              has_children := moved.any fun m => isChild m.demographics,
              has_elderly := moved.any fun m => isElderly m.demographics,
              household_type := householdType moved })

/-- Number of members carrying the head-of-household relationship. -/
def headCount (members : List HouseholdMember) : ℕ :=
  members.countP fun m => m.relationship = HouseholdRelationship.head_of_household

theorem insertMemberByAge_length (x : HouseholdMember) (l : List HouseholdMember) :
    (insertMemberByAge x l).length = l.length + 1 := by
  induction l with
  | nil => rfl
  | cons y ys ih =>
    by_cases h : x.demographics.age.getD 0 < y.demographics.age.getD 0
    · simp [insertMemberByAge, h, ih]
    · simp [insertMemberByAge, h]

theorem sortMembersByAgeDesc_length (l : List HouseholdMember) :
    (sortMembersByAgeDesc l).length = l.length := by
  induction l with
  | nil => rfl
  | cons x xs ih =>
    rw [sortMembersByAgeDesc, insertMemberByAge_length, ih, List.length_cons]

theorem setHeadAt_length (l : List HouseholdMember) (t : HouseholdMember) :
    (setHeadAt l t).length = l.length := by
  induction l with
  | nil => rfl
  | cons m ms ih =>
    by_cases h : m = t
    · simp [setHeadAt, h]
    · simp [setHeadAt, h, ih]

theorem promoteNewHead_length (l l' : List HouseholdMember)
    (h : promoteNewHead l = some l') : l'.length = l.length := by
  unfold promoteNewHead at h
  by_cases he : l.isEmpty
  · rw [if_pos he] at h
    cases h
    rfl
  · rw [if_neg he] at h
    by_cases hn : l.any (fun m => m.demographics.age.isNone)
    · rw [if_pos hn] at h
      cases h
    · rw [if_neg hn] at h
      cases hs : sortMembersByAgeDesc (l.filter fun m => 18 ≤ m.demographics.age.getD 0) with
      | cons a rest =>
        rw [hs] at h
        cases h
        exact setHeadAt_length l a
      | nil =>
        rw [hs] at h
        cases hm : sortMembersByAgeDesc l with
        | nil =>
          exfalso
          have hlen := sortMembersByAgeDesc_length l
          rw [hm] at hlen
          cases l with
          | nil => exact he rfl
          | cons _ _ => simp at hlen
        | cons mh mt =>
          rw [hm] at h
          cases h
          have hlen := sortMembersByAgeDesc_length l
          rw [hm] at hlen
          simpa using hlen

theorem determineRelationship_ne_head (simLast : Person → Person → Bool)
    (h m : Person) (ha ma : ℤ) :
    (determineRelationship simLast h m ha ma).1 ≠
      HouseholdRelationship.head_of_household := by
  unfold determineRelationship
  simp only [apply_ite Prod.fst]
  split_ifs <;> simp

theorem insertByAge_perm (x : Person × ℤ) (l : List (Person × ℤ)) :
    (insertByAge x l).Perm (x :: l) := by
  induction l with
  | nil => simp [insertByAge]
  | cons y ys ih =>
    by_cases h : x.2 < y.2
    · simpa [insertByAge, h] using ((ih.cons y).trans (List.Perm.swap x y ys))
    · simp [insertByAge, h]

theorem sortByAgeDesc_perm (l : List (Person × ℤ)) : (sortByAgeDesc l).Perm l := by
  induction l with
  | nil => simp [sortByAgeDesc]
  | cons x xs ih =>
    exact (insertByAge_perm x (sortByAgeDesc xs)).trans (ih.cons x)

theorem analyzeHeadPair_isSome (sorted : List (Person × ℤ)) (hne : sorted ≠ []) :
    (analyzeHeadPair sorted).isSome := by
  unfold analyzeHeadPair
  cases hf : sorted.find? (fun pa => 18 ≤ pa.2) with
  | some pa => rfl
  | none =>
    cases sorted with
    | nil => exact absurd rfl hne
    | cons a as => rfl

/-- Claim C9 (amended): household size equals the length of the members
list for single-household creation, multi-person analysis, merging,
member addition, member removal (on every path, the exception path of
head promotion included) and household splitting (for both resulting
households); detection produces exactly one head whenever some member
has a parseable date of birth; but `merge_households` only concatenates
member lists, so the merged household carries the heads of *both*
inputs — merging two well-formed households yields two heads (see the
counterexample), and the exactly-one-head invariant is not
preserved. -/
theorem household_size_and_head_invariants :
    (∀ p : Person, (createSingleHousehold p).household_size =
        (createSingleHousehold p).members.length ∧
      headCount (createSingleHousehold p).members = 1) ∧
    (∀ (simLast : Person → Person → Bool) (members : List Person) (key : String),
      (analyzeMultiPersonHousehold simLast members key).household_size =
        (analyzeMultiPersonHousehold simLast members key).members.length ∧
      ((members.filterMap fun m => m.age.map fun a => (m, a)) ≠ [] →
        headCount (analyzeMultiPersonHousehold simLast members key).members = 1)) ∧
    (∀ h1 h2 : Household, (mergeHouseholds h1 h2).household_size =
        (mergeHouseholds h1 h2).members.length ∧
      headCount (mergeHouseholds h1 h2).members =
        headCount h1.members + headCount h2.members) ∧
    (∀ (h : Household) (p : Person) (rel : HouseholdRelationship) (conf : ℚ)
      (h' : Household), addMemberToHousehold h p rel conf = some h' →
      h.household_size = h.members.length →
      h'.household_size = h'.members.length) ∧
    (∀ (h : Household) (identityId : String),
      h.household_size = h.members.length →
      ((removeMemberFromHousehold h identityId).2).household_size =
        ((removeMemberFromHousehold h identityId).2).members.length) ∧
    (∀ (h : Household) (memberIds : List String) (o n : Household),
      splitHousehold h memberIds = some (o, n) →
      o.household_size = o.members.length ∧
      n.household_size = n.members.length) := by
  refine ⟨?_, ?_, ?_, ?_, ?_, ?_⟩
  · intro p
    exact ⟨rfl, by simp [createSingleHousehold, headCount]⟩
  · intro simLast members key
    refine ⟨rfl, ?_⟩
    intro hne
    have hsne : sortByAgeDesc (members.filterMap fun m => m.age.map fun a => (m, a)) ≠ [] := by
      intro h0
      have hperm := sortByAgeDesc_perm (members.filterMap fun m => m.age.map fun a => (m, a))
      rw [h0] at hperm
      exact hne hperm.symm.eq_nil
    have hsome := analyzeHeadPair_isSome _ hsne
    show headCount (analyzeMembers simLast (analyzeHeadPair
      (sortByAgeDesc (members.filterMap fun m => m.age.map fun a => (m, a))))
      (sortByAgeDesc (members.filterMap fun m => m.age.map fun a => (m, a)))) = 1
    cases hhp : analyzeHeadPair
        (sortByAgeDesc (members.filterMap fun m => m.age.map fun a => (m, a))) with
    | none =>
      rw [hhp] at hsome
      exact absurd hsome (by simp)
    | some pa =>
      obtain ⟨hp, hage⟩ := pa
      unfold analyzeMembers headCount
      rw [List.countP_cons]
      have hrest : ((sortByAgeDesc (members.filterMap fun m => m.age.map fun a => (m, a))).filter
          (fun pa => ¬ pa.1.identity_id = hp.identity_id)).countP
            ((fun m => decide (m.relationship = HouseholdRelationship.head_of_household)) ∘
              (fun pa => (⟨pa.1.identity_id,
                (determineRelationship simLast hp pa.1 hage pa.2).1,
                (determineRelationship simLast hp pa.1 hage pa.2).2, pa.1⟩ :
                  HouseholdMember))) = 0 := by
        rw [List.countP_eq_zero]
        intro a _
        simpa using determineRelationship_ne_head simLast hp a.1 hage a.2
      rw [List.countP_map, hrest]
      simp
  · intro h1 h2
    refine ⟨rfl, ?_⟩
    show headCount (h1.members ++ h2.members) = _
    unfold headCount
    rw [List.countP_append]
  · intro h p rel conf h' hadd hsize
    unfold addMemberToHousehold at hadd
    by_cases hmem : h.members.any fun m => m.identity_id = p.identity_id
    · rw [if_pos hmem] at hadd
      cases hadd
    · rw [if_neg hmem] at hadd
      cases hadd
      simp [hsize]
  · intro h identityId hsize
    cases hf : h.members.find? (fun m => m.identity_id = identityId) with
    | none =>
      have hred : removeMemberFromHousehold h identityId = (false, h) := by
        unfold removeMemberFromHousehold
        rw [hf]
      rw [hred]
      exact hsize
    | some removed =>
      have hmem := List.mem_of_find?_eq_some hf
      have hpa := List.find?_some hf
      have hlen : (h.members.eraseP fun m => m.identity_id = identityId).length + 1 =
          h.members.length := List.length_eraseP_add_one hmem hpa
      have hred : removeMemberFromHousehold h identityId =
          (if removed.relationship = HouseholdRelationship.head_of_household then
            match promoteNewHead (h.members.eraseP fun m => m.identity_id = identityId) with
            | some members2 =>
              (true, { h with members := members2,
                              household_size := h.household_size - 1 })
            | none =>
              (false, { h with
                members := h.members.eraseP (fun m => m.identity_id = identityId),
                household_size := h.household_size - 1 })
          else
            (true, { h with
              members := h.members.eraseP (fun m => m.identity_id = identityId),
              household_size := h.household_size - 1 })) := by
        unfold removeMemberFromHousehold
        rw [hf]
      rw [hred]
      by_cases hr : removed.relationship = HouseholdRelationship.head_of_household
      · rw [if_pos hr]
        cases hp : promoteNewHead (h.members.eraseP fun m => m.identity_id = identityId) with
        | some members2 =>
          have hl2 := promoteNewHead_length _ _ hp
          show h.household_size - 1 = members2.length
          omega
        | none =>
          show h.household_size - 1 =
            (h.members.eraseP fun m => m.identity_id = identityId).length
          omega
      · rw [if_neg hr]
        show h.household_size - 1 =
          (h.members.eraseP fun m => m.identity_id = identityId).length
        omega
  · intro h memberIds o n hs
    unfold splitHousehold at hs
    by_cases hg : ((h.members.filter fun m => m.identity_id ∈ memberIds).isEmpty ||
        (h.members.filter fun m => ¬ m.identity_id ∈ memberIds).isEmpty) = true
    · rw [if_pos hg] at hs
      cases hs
    · rw [if_neg hg] at hs
      cases hm : splitMovedMembers (h.members.filter fun m => m.identity_id ∈ memberIds) with
      | none =>
        rw [hm] at hs
        cases hs
      | some moved =>
        rw [hm] at hs
        have hs' : (some
            ({ h with
               members := h.members.filter (fun m => ¬ m.identity_id ∈ memberIds),
               household_size :=
                 (h.members.filter (fun m => ¬ m.identity_id ∈ memberIds)).length },
             { household_id := "HH_SPLIT",
               members := moved,
               household_size := moved.length,
               has_children := moved.any fun m => isChild m.demographics,
               has_elderly := moved.any fun m => isElderly m.demographics,
               household_type := householdType moved }) :
            Option (Household × Household)) = some (o, n) := hs
        cases hs'
        exact ⟨rfl, rfl⟩

/-- Claim C9, counterexample: merging the two (well-formed, single-head)
single households of persons `A` and `B` produces a household whose two
members both carry the head-of-household relationship — `exactly one
head` fails after a merge. -/
theorem merged_household_has_two_heads :
    headCount (mergeHouseholds (createSingleHousehold ⟨"A", some 40⟩)
        (createSingleHousehold ⟨"B", some 35⟩)).members = 2 ∧
      (mergeHouseholds (createSingleHousehold ⟨"A", some 40⟩)
        (createSingleHousehold ⟨"B", some 35⟩)).household_size = 2 ∧
      headCount (createSingleHousehold ⟨"A", some 40⟩).members = 1 ∧
      headCount (createSingleHousehold ⟨"B", some 35⟩).members = 1 ∧
      (2 : ℕ) ≠ 1 := by
  refine ⟨by decide, by decide, by decide, by decide, by decide⟩

/-- Claim C9, witness: the one-head property of analysis at a concrete
two-person group (ages 40 and 12). -/
theorem household_size_and_head_invariants_witness :
    headCount (analyzeMultiPersonHousehold (fun _ _ => false)
      [⟨"A", some 40⟩, ⟨"B", some 12⟩] "123 main st|denver|co|80014").members = 1 :=
  (household_size_and_head_invariants.2.1 (fun _ _ => false)
    [⟨"A", some 40⟩, ⟨"B", some 12⟩] "123 main st|denver|co|80014").2 (by decide)

end IDXR
